import Mathlib

/-!
Verification of behavioral properties of the `nr_helperlib` data-wrangling
utilities (statisticsnorway/nr_helperlib).

The Python source is shallowly embedded: pandas dataframes become Lean lists
(of rows, or of named columns of rationals), numpy float arithmetic becomes
arithmetic on `ℚ`, period indexes become explicit `Int` year keys, and the
"print an error and return None" failure idiom becomes `Option`/`Except`
results.  Each definition is translated from the function of the same name in
the repository; theorems then settle the specification's claims about them.
-/

/-! ## String helpers

Python lower-casing and substring search, modelled on character lists.
`Char.toLower` (ASCII case folding) stands in for `str.lower()`.
-/

/-- Python `s.lower()`: lower-case every character of the string. -/
def str_lower (s : String) : String :=
  ⟨s.data.map Char.toLower⟩

/-- Python `needle in hay` for character lists: some tail of `hay` starts
with `needle`. -/
def has_substr (needle : List Char) : List Char → Bool
  | [] => needle.isEmpty
  | c :: t => needle.isPrefixOf (c :: t) || has_substr needle t

/-- Python `pat in hay` on strings (plain substring containment; this is what
`pandas.Series.str.contains` computes for patterns without regex
metacharacters, the only patterns the library is used with). -/
def str_contains (hay pat : String) : Bool :=
  has_substr pat.data hay.data

/-- Python `s.startswith(pre)`. -/
def str_starts_with (s pre : String) : Bool :=
  pre.data.isPrefixOf s.data

/-- Python `str.isnumeric()` restricted to ASCII names: non-empty and all
characters are decimal digits. -/
def isnumeric_str (s : String) : Bool :=
  !s.data.isEmpty && s.data.all Char.isDigit

/-- Base-10 value of a digit-only folder name, as computed by
`pandas.Series.astype(int)` in `FolderSearcher.__filter_years`. -/
def folder_to_int (s : String) : Int :=
  ((s.data.foldl (fun n c => 10 * n + (c.toNat - 48)) 0 : ℕ) : ℤ)

/-! ## Folder Enumerator (`src/functions/metadata_generator.py`)

`FolderSearcher.__check_numeric_folders` filters the subdirectory names with
`str.isnumeric`, and `FolderSearcher.__filter_years` converts the survivors
with `astype(int)` and keeps the ones inside `[start_year, stop_year]`.
-/

/-- `FolderSearcher.__filter_years`, numeric branch: keep the parsed years
`n` with `start_year <= n <= stop_year` (pandas `.loc` with a boolean and). -/
def filter_years (file_list : List Int) (start_year stop_year : Int) : List Int :=
  file_list.filter (fun n => decide (start_year ≤ n) && decide (n ≤ stop_year))

/-- `FolderSearcher.__check_numeric_folders`: drop names that are not numeric
(`item.isnumeric()`), parse the rest as integers, then apply
`__filter_years`. -/
def check_numeric_folders (list_of_folders : List String) (start_year stop_year : Int) : List Int :=
  filter_years ((list_of_folders.filter isnumeric_str).map folder_to_int) start_year stop_year

/-- Fusing a filter, a map and a second filter into one `filterMap`. -/
theorem filter_map_filter_eq_filterMap {α β : Type} (p : α → Bool) (f : α → β)
    (q : β → Bool) (l : List α) :
    ((l.filter p).map f).filter q
      = l.filterMap (fun a => if p a && q (f a) then some (f a) else none) := by
  induction l with
  | nil => rfl
  | cons h t ih =>
    cases hp : p h with
    | false => simpa [List.filter, List.filterMap, hp] using ih
    | true =>
      cases hq : q (f h) with
      | false => simpa [List.filter, List.filterMap, hp, hq] using ih
      | true => simpa [List.filter, List.filterMap, hp, hq] using ih

/-- C3: the Folder Enumerator with `numeric_only = true` retains exactly the
subdirectory names that parse as integers `n` with
`year_start ≤ n ≤ year_stop` inclusive (any name that is not numeric is
silently dropped, not an error), in their original order; in particular the
names `2020`, `2021`, `abc` with range `[2020, 2021]` yield exactly the two
year folders `2020` and `2021`.  (The source returns the parsed integer
values of the retained names.) -/
theorem check_numeric_folders_exact (list_of_folders : List String)
    (start_year stop_year : Int) :
    check_numeric_folders list_of_folders start_year stop_year
      = list_of_folders.filterMap (fun s =>
          if isnumeric_str s
              && (decide (start_year ≤ folder_to_int s)
                  && decide (folder_to_int s ≤ stop_year))
          then some (folder_to_int s) else none)
    ∧ check_numeric_folders ["2020", "2021", "abc"] 2020 2021 = [2020, 2021] := by
  constructor
  · simpa [check_numeric_folders, filter_years] using
      filter_map_filter_eq_filterMap isnumeric_str folder_to_int
        (fun n => decide (start_year ≤ n) && decide (n ≤ stop_year)) list_of_folders
  · decide

/-! ## Frequency-ordering check of `aggregation_func`
(`src/ts_tools/ts_agg_disagg.py`)

`aggregation_func` numbers the allowed index dtypes by their position in
`allowed_dtypes` (`datetime64[ns]`, `period[D]`, `period[M]`,
`period[Q-DEC]`, `period[A-DEC]`), numbers the target frequency with
`{'D': 1, 'M': 2, 'Q': 3, 'Y': 4}`, and raises an `IndexError` when
`target_freq_num <= input_idx_num`.
-/

/-- The index dtypes accepted by `aggregation_func` (`allowed_dtypes`). -/
inductive IndexDtype where
  | datetime64
  | periodD
  | periodM
  | periodQ
  | periodA
deriving DecidableEq

/-- The target frequencies with an entry in `target_freq_vals`. -/
inductive TargetFreq where
  | D
  | M
  | Q
  | Y
deriving DecidableEq

/-- `input_idx_num`: the position of the input index dtype in
`allowed_dtypes` (via the reversed `allowed_combos` dict). -/
def input_idx_num : IndexDtype → Nat
  | .datetime64 => 0
  | .periodD => 1
  | .periodM => 2
  | .periodQ => 3
  | .periodA => 4

/-- `target_freq_vals`: the numeric rank of the requested output frequency. -/
def target_freq_vals : TargetFreq → Nat
  | .D => 1
  | .M => 2
  | .Q => 3
  | .Y => 4

/-- The ordering guard of `aggregation_func`: `true` exactly when the
function raises the `IndexError` ordering error
(`target_freq_num <= input_idx_num`). -/
def aggregation_func_rejects_freq (idx : IndexDtype) (t : TargetFreq) : Bool :=
  target_freq_vals t ≤ input_idx_num idx

/-- The calendar granularity of a period index dtype on the same 1..4 scale
as `target_freq_vals` (day, month, quarter, year); `datetime64[ns]` is not a
period dtype and has none. -/
def period_index_granularity : IndexDtype → Option Nat
  | .datetime64 => none
  | .periodD => some 1
  | .periodM => some 2
  | .periodQ => some 3
  | .periodA => some 4

/-- C7 counterexample: the claim says a target frequency coarser than or
equal to the input's is rejected.  A quarterly target is strictly coarser
than a monthly period index (granularity 2 versus 3), yet the ordering guard
does not reject it: `aggregation_func` accepts this ordinary downsampling
request. -/
theorem aggregation_func_accepts_coarser :
    period_index_granularity IndexDtype.periodM = some 2
    ∧ target_freq_vals TargetFreq.Q = 3
    ∧ 2 ≤ 3
    ∧ aggregation_func_rejects_freq IndexDtype.periodM TargetFreq.Q = false := by
  decide

/-- C7 amended: the ordering guard rejects exactly the target frequencies
that are finer than or equal to the input period index's granularity, so
only strict downsampling passes and a same-frequency no-op is always
rejected; a `datetime64[ns]` index is never rejected by this guard. -/
theorem aggregation_func_rejects_finer_or_equal :
    (∀ (idx : IndexDtype) (t : TargetFreq) (g : Nat),
        period_index_granularity idx = some g →
        (aggregation_func_rejects_freq idx t = true ↔ target_freq_vals t ≤ g))
    ∧ ∀ t : TargetFreq, aggregation_func_rejects_freq IndexDtype.datetime64 t = false := by
  constructor
  · intro idx t g hg
    cases idx <;> cases t <;>
      simp_all [period_index_granularity, aggregation_func_rejects_freq,
        target_freq_vals, input_idx_num]
  · intro t
    cases t <;> decide

/-- C7 witness: a same-frequency request (quarterly index, quarterly target)
is rejected by the guard. -/
theorem aggregation_func_rejects_noop_witness :
    aggregation_func_rejects_freq IndexDtype.periodQ TargetFreq.Q = true :=
  (aggregation_func_rejects_finer_or_equal.1 IndexDtype.periodQ TargetFreq.Q 3
    (by decide)).mpr (by decide)

/-! ## Input checking decorator
(`src/data_import_tools/utility_module.py`)

`input_argument_none_eliminator` wraps a function; its wrapper computes
`{**kwargs}.values()` and raises a `ValueError` iff `None` is among those
values.  Positional arguments are never inspected (the line that would
collect them is commented out), and an argument that is simply omitted never
reaches `kwargs` at all, so the check sees nothing.
-/

/-- The raise condition of `input_argument_none_eliminator`'s wrapper:
`None in {**kwargs}.values()`.  The argument is the list of values the
caller passed BY KEYWORD (a column name, or `none` for an explicit
`None`). -/
def input_argument_none_eliminator_check (kwarg_values : List (Option String)) : Bool :=
  kwarg_values.contains none

/-- C9: calling `divider`/`multiplier`/`proportion_func` with the required
column names unset (omitted, so the wrapper receives no keyword arguments)
raises no missing-argument error at all — the decorator inspects only
`kwargs`, so the call falls through to the body, which then fails inside
pandas with a `KeyError` on the missing column.  Only an argument passed as
an explicit `None` keyword is caught. -/
theorem input_argument_none_eliminator_misses_defaults :
    input_argument_none_eliminator_check [] = false
    ∧ input_argument_none_eliminator_check [some "x", none] = true := by
  decide

/-! ## Categorisation (`src/functions/import_class.py`)

`DataImporter.categorise_data` walks the keyword list in order; for each
keyword it collects, across every directory of the nested result, the tables
whose filename key starts with the keyword, and stores the concatenation
under the keyword.  At the END OF EACH keyword iteration it raises an
`AssertionError` if the storage dict is still empty.
-/

/-- The nested import result: directory name to list of (filename key, table
id) pairs.  The table payloads are irrelevant to the matching logic and are
abstracted to `ℕ` identifiers. -/
abbrev FolderDict := List (String × List (String × ℕ))

/-- Whether a category keyword matches at least one table key anywhere in the
nested result (some filename in some directory starts with it). -/
def kw_matches (fd : FolderDict) (kw : String) : Bool :=
  fd.any (fun d => d.2.any (fun f => str_starts_with f.1 kw))

/-- The keyword loop of `categorise_data`, tracking the keys of
`storage_dict`: a keyword that matched something is added as a key (a dict
key is stored once), and after every keyword the loop raises iff the storage
dict is still empty. -/
def categorise_go (fd : FolderDict) (storage : List String) :
    List String → Except String (List String)
  | [] => .ok storage
  | kw :: rest =>
    let storage' :=
      if kw_matches fd kw then
        if storage.contains kw then storage else storage ++ [kw]
      else storage
    if storage'.isEmpty then
      .error "No categories matching imported data found in dataset_list. Please revise dataset_list items."
    else categorise_go fd storage' rest

/-- `DataImporter.categorise_data`, reduced to the category keys it stores
and the raise behavior. -/
def categorise_data (fd : FolderDict) (dataset_list : List String) :
    Except String (List String) :=
  categorise_go fd [] dataset_list

/-- C6 counterexample: with tables whose only key is `data1` and keyword list
`["b", "data"]`, the keyword `data` does match a table, so the claim says the
call succeeds; but the code checks the storage dict after EVERY keyword, so
the unmatched first keyword `b` already raises the no-category-match error. -/
theorem categorise_data_raises_despite_match :
    kw_matches [("2020", [("data1", 0)])] "data" = true
    ∧ (categorise_data [("2020", [("data1", 0)])] ["b", "data"]).isOk = false := by
  decide

/-- A non-empty storage dict survives the rest of the keyword loop: the
error can only be raised while the storage is empty. -/
theorem categorise_go_ok_of_ne_nil (fd : FolderDict) :
    ∀ (kws : List String) (storage : List String), storage ≠ [] →
      (categorise_go fd storage kws).isOk = true := by
  intro kws
  induction kws with
  | nil => intro storage _; rfl
  | cons kw rest ih =>
    intro storage hs
    simp only [categorise_go]
    by_cases hm : kw_matches fd kw = true
    · by_cases hc : storage.contains kw = true
      · rw [if_pos hm, if_pos hc, if_neg (by simpa [List.isEmpty_iff] using hs)]
        exact ih storage hs
      · have hne : storage ++ [kw] ≠ [] := by simp
        rw [if_pos hm, if_neg hc, if_neg (by simp [List.isEmpty_iff])]
        exact ih (storage ++ [kw]) hne
    · rw [if_neg hm, if_neg (by simpa [List.isEmpty_iff] using hs)]
      exact ih storage hs

/-- C6 amended: for a non-empty keyword list, `categorise_data` raises the
no-category-match error if and only if the FIRST keyword matches no table
key; whether later keywords match is never consulted for the error (the
empty-storage check runs at the end of every keyword iteration, so it can
only ever fire on a prefix of unmatched keywords, i.e. on the first one). -/
theorem categorise_data_errors_iff_first_unmatched (fd : FolderDict)
    (kw : String) (rest : List String) :
    (categorise_data fd (kw :: rest)).isOk = false ↔ kw_matches fd kw = false := by
  constructor
  · intro h
    by_contra hm
    have hm' : kw_matches fd kw = true := by
      cases hmv : kw_matches fd kw
      · exact absurd hmv hm
      · rfl
    have : (categorise_go fd [kw] rest).isOk = true :=
      categorise_go_ok_of_ne_nil fd rest [kw] (by simp)
    simp [categorise_data, categorise_go, hm', List.isEmpty_iff] at h
    rw [h] at this
    exact Bool.false_ne_true this
  · intro hm
    have hm' : ¬(kw_matches fd kw = true) := by simp [hm]
    simp only [categorise_data, categorise_go]
    rw [if_neg hm']
    rfl

/-! ## Year stamping in `file_batch_importer`
(`src/data_import_tools/import_helpers.py`)

With `attach_years=True`, `file_batch_importer` builds
`years = list(np.arange(year_start, year_stop + 1))` and, BEFORE attaching
anything, compares `len(years)` with the number of imported tables; on a
mismatch it prints an error message and returns `None` (the
`YearCountMismatchError` of the specification), otherwise it assigns
`years[y]` to the `aar` column of the `y`-th table in sorted-filename
order.
-/

/-- One imported table: an abstract payload plus the optional year column
`aar` added by year stamping. -/
structure ImportedTable where
  payload : ℕ
  aar : Option Int
deriving DecidableEq

/-- `list(np.arange(a, b + 1))`: the integers from `a` to `b` inclusive
(empty when `b < a`). -/
def int_range (a b : Int) : List Int :=
  (List.range (b + 1 - a).toNat).map (fun i => a + Int.ofNat i)

/-- The `attach_years` stage of `file_batch_importer` for the `list`/`df`
shapes: `df_list` holds the tables in sorted-filename order; `none` models
the printed error plus `return None`. -/
def file_batch_importer_attach_years (df_list : List ImportedTable)
    (year_start year_stop : Int) : Option (List ImportedTable) :=
  let years := int_range year_start year_stop
  if years.length ≠ df_list.length then none
  else some (List.zipWith (fun df y => { df with aar := some y }) df_list years)

/-- The elements of `int_range`. -/
theorem int_range_getElem (a b : Int) (i : ℕ) (hi : i < (int_range a b).length) :
    (int_range a b).get ⟨i, hi⟩ = a + (i : ℤ) := by
  simp only [int_range, List.get_eq_getElem, List.getElem_map, List.getElem_range]
  rfl

/-- C5: whenever the number of imported tables equals the number of years in
the inclusive `[year_start, year_stop]` range, the `i`-th table (in sorted
file order) receives the year `year_start + i` — distinct ascending years
covering the range — with its payload untouched; whenever the counts differ,
the operation fails (prints the mismatch error and returns `None`), so no
partial or misaligned years are ever attached. -/
theorem file_batch_importer_attach_years_exact (df_list : List ImportedTable)
    (year_start year_stop : Int) :
    ((int_range year_start year_stop).length = df_list.length →
      ∃ out, file_batch_importer_attach_years df_list year_start year_stop = some out
        ∧ out.length = df_list.length
        ∧ ∀ (i : ℕ) (ho : i < out.length) (hd : i < df_list.length),
            (out.get ⟨i, ho⟩).payload = (df_list.get ⟨i, hd⟩).payload
            ∧ (out.get ⟨i, ho⟩).aar = some (year_start + (i : ℤ)))
    ∧ ((int_range year_start year_stop).length ≠ df_list.length →
      file_batch_importer_attach_years df_list year_start year_stop = none) := by
  constructor
  · intro hlen
    refine ⟨List.zipWith (fun df y => { df with aar := some y }) df_list
      (int_range year_start year_stop), ?_, ?_, ?_⟩
    · simp [file_batch_importer_attach_years, hlen]
    · simp [List.length_zipWith, hlen]
    · intro i ho hd
      have hi : i < (int_range year_start year_stop).length := by omega
      have hrange := int_range_getElem year_start year_stop i hi
      constructor
      · simp [List.get_eq_getElem, List.getElem_zipWith]
      · simp only [List.get_eq_getElem, List.getElem_zipWith]
        simp only [List.get_eq_getElem] at hrange
        rw [hrange]
  · intro hlen
    simp [file_batch_importer_attach_years, hlen]

/-- C5 witness: three tables with range 2019..2021 get years 2019, 2020,
2021 in file order; the same three tables with range 2019..2020 produce the
mismatch failure. -/
theorem file_batch_importer_attach_years_witness :
    (file_batch_importer_attach_years
        [⟨10, none⟩, ⟨11, none⟩, ⟨12, none⟩] 2019 2020 = none)
    ∧ ∃ out, file_batch_importer_attach_years
        [⟨10, none⟩, ⟨11, none⟩, ⟨12, none⟩] 2019 2021 = some out
        ∧ out.length = 3
        ∧ (out.get? 0).map ImportedTable.aar = some (some 2019) := by
  constructor
  · exact (file_batch_importer_attach_years_exact _ 2019 2020).2 (by decide)
  · obtain ⟨out, hout, hlen, hel⟩ :=
      (file_batch_importer_attach_years_exact
        [⟨10, none⟩, ⟨11, none⟩, ⟨12, none⟩] 2019 2021).1 (by decide)
    have hl3 : out.length = 3 := by simpa using hlen
    refine ⟨out, hout, hl3, ?_⟩
    have h0 := (hel 0 (by omega) (by decide)).2
    have hq : out.get? 0 = some (out.get ⟨0, by omega⟩) := List.get?_eq_get (by omega)
    rw [hq, Option.map_some', h0]
    simp

/-! ## Column arithmetic (`src/functions/main_program_functions.py`)

A pandas dataframe is modelled as an ordered association list of named
columns of rationals (numpy float arithmetic on `ℚ`).  Column assignment
`df[c] = v` overwrites an existing column in place or appends a new one at
the end, which is exactly pandas' behavior.
-/

/-- A dataframe: named columns of rationals, in column order. -/
abbrev Df := List (String × List ℚ)

/-- `df[c]`: the values of column `c` (first match; `[]` when absent — the
absent case never arises in a well-formed call and only keeps the model
total). -/
def getCol (df : Df) (c : String) : List ℚ :=
  ((df.find? (fun p => p.1 == c)).map Prod.snd).getD []

/-- `df[c] = v`: overwrite column `c` if present, else append it. -/
def setCol (df : Df) (c : String) (v : List ℚ) : Df :=
  if df.any (fun p => p.1 == c) then
    df.map (fun p => if p.1 == c then (c, v) else p)
  else df ++ [(c, v)]

/-- `np.multiply(df[X], df[Y])`: elementwise product. -/
def np_multiply (xs ys : List ℚ) : List ℚ :=
  List.zipWith (fun x y => x * y) xs ys

/-- `np.divide(df[X], df[Y], out=np.zeros_like(df[X]), where=df[Y] != 0)`:
elementwise quotient, with the `out` value `0` kept wherever the divisor is
`0` (no error is ever raised — the operation is total). -/
def np_divide_where (xs ys : List ℚ) : List ℚ :=
  List.zipWith (fun x y => if y = 0 then 0 else x / y) xs ys

/-- `pandas.Series.round(0)` on a float column: round half to even
(numpy/IEEE rounding), per element. -/
def round_half_even (q : ℚ) : ℚ :=
  let fl : ℤ := ⌊q⌋
  let fr : ℚ := q - fl
  if fr < 1 / 2 then (fl : ℚ)
  else if 1 / 2 < fr then (fl : ℚ) + 1
  else if fl % 2 = 0 then (fl : ℚ) else (fl : ℚ) + 1

/-- `multiplier`: copy the input frame and store `df[X] * df[Y]` in
`df[new_col]`. -/
def multiplier (df_in : Df) (X Y new_col : String) : Df :=
  setCol df_in new_col (np_multiply (getCol df_in X) (getCol df_in Y))

/-- `divider`: copy the input frame and store the zero-safe quotient
`df[X] / df[Y]` in `df[new_col]`. -/
def divider (df_in : Df) (X Y new_col : String) : Df :=
  setCol df_in new_col (np_divide_where (getCol df_in X) (getCol df_in Y))

/-- `proportion_func`: copy the input frame and store
`round((df[X] / df[Y]) * df[Z])` (zero-safe quotient, half-even rounding)
in `df[new_col]`. -/
def proportion_func (df_in : Df) (X Y Z new_col : String) : Df :=
  setCol df_in new_col
    ((List.zipWith (fun d z => d * z)
        (np_divide_where (getCol df_in X) (getCol df_in Y))
        (getCol df_in Z)).map round_half_even)

/-- Overwriting the entries keyed `n` does not change what `find?` sees for
a different key `c`. -/
theorem find_map_overwrite_ne (t : List (String × List ℚ)) (n c : String)
    (v : List ℚ) (h : c ≠ n) :
    List.find? (fun p => p.1 == c)
        (t.map (fun p => if p.1 == n then (n, v) else p))
      = List.find? (fun p => p.1 == c) t := by
  induction t with
  | nil => rfl
  | cons p t ih =>
    by_cases hp : p.1 = n
    · have h1 : (if (p.1 == n) = true then (n, v) else p) = (n, v) := by simp [hp]
      simp only [List.map_cons, h1]
      rw [List.find?_cons_of_neg _ (by simpa using fun hnc => h hnc.symm),
        List.find?_cons_of_neg _ (by rw [hp]; simpa using fun hnc => h hnc.symm)]
      exact ih
    · have h1 : (if (p.1 == n) = true then (n, v) else p) = p := by simp [hp]
      simp only [List.map_cons, h1]
      by_cases hc : p.1 = c
      · rw [List.find?_cons_of_pos _ (by simpa using hc),
          List.find?_cons_of_pos _ (by simpa using hc)]
      · rw [List.find?_cons_of_neg _ (by simpa using hc),
          List.find?_cons_of_neg _ (by simpa using hc)]
        exact ih

/-- Reading back any other column after a column assignment is unchanged. -/
theorem getCol_setCol_ne (df : Df) (n c : String) (v : List ℚ) (h : c ≠ n) :
    getCol (setCol df n v) c = getCol df c := by
  unfold setCol
  split
  · simp only [getCol, find_map_overwrite_ne df n c v h]
  · unfold getCol
    rw [List.find?_append]
    have hone : List.find? (fun p => p.1 == c) [(n, v)] = none := by
      simpa using fun hnc => absurd hnc.symm h
    rw [hone, Option.or_none]

/-- Reading back the assigned column yields the assigned values. -/
theorem getCol_setCol_self (df : Df) (n : String) (v : List ℚ) :
    getCol (setCol df n v) n = v := by
  unfold setCol
  split
  · rename_i hany
    unfold getCol
    induction df with
    | nil => simp at hany
    | cons p t ih =>
      by_cases hp : p.1 = n
      · simp [getCol, List.find?_cons, hp]
      · have hpn : (p.1 == n) = false := by simp [hp]
        have hany' : t.any (fun p => p.1 == n) = true := by
          simp only [List.any_cons, hpn, Bool.false_or] at hany
          exact hany
        simp only [List.map_cons, hpn, Bool.false_eq_true, if_false]
        rw [List.find?_cons_of_neg]
        · exact ih hany'
        · simp [hp]
  · unfold getCol
    rename_i hany
    have hnone : List.find? (fun p => p.1 == n) df = none := by
      rw [List.find?_eq_none]
      intro x hx
      intro hxn
      have : df.any (fun p => p.1 == n) = true := List.any_eq_true.mpr ⟨x, hx, hxn⟩
      exact hany this
    rw [List.find?_append, hnone]
    simp

/-- C8: `divider(df, X, Y, "r")` writes, for every row, `0` where the
divisor `df[Y]` is `0` and the true quotient `df[X] / df[Y]` elsewhere; the
operation is total (a zero divisor is never an error). -/
theorem divider_zero_divisor_policy (df_in : Df) (X Y new_col : String) :
    getCol (divider df_in X Y new_col) new_col
      = List.zipWith (fun x y => if y = 0 then 0 else x / y)
          (getCol df_in X) (getCol df_in Y)
    ∧ ∀ (i : ℕ), i < (getCol df_in X).length → i < (getCol df_in Y).length →
        (getCol (divider df_in X Y new_col) new_col).getD i 0
          = if (getCol df_in Y).getD i 0 = 0 then 0
            else (getCol df_in X).getD i 0 / (getCol df_in Y).getD i 0 := by
  have hcol : getCol (divider df_in X Y new_col) new_col
      = np_divide_where (getCol df_in X) (getCol df_in Y) :=
    getCol_setCol_self df_in new_col _
  refine ⟨hcol, ?_⟩
  intro i hx hy
  have hlen : i < (np_divide_where (getCol df_in X) (getCol df_in Y)).length := by
    simp [np_divide_where, List.length_zipWith]
    omega
  rw [hcol]
  rw [List.getD_eq_getElem _ _ hlen, List.getD_eq_getElem _ _ hx, List.getD_eq_getElem _ _ hy]
  simp [np_divide_where, List.getElem_zipWith]

/-- C8 witness: on the frame with `x = [3, 4]`, `y = [0, 2]`, the result
column `r` of `divider` is `0` in the zero-divisor row and `x / y` in the
other row. -/
theorem divider_zero_divisor_policy_witness :
    (getCol (divider [("x", [3, 4]), ("y", [0, 2])] "x" "y" "r") "r").getD 0 0
        = (if (getCol [("x", [3, 4]), ("y", [0, 2])] "y").getD 0 0 = 0 then 0
          else (getCol [("x", [3, 4]), ("y", [0, 2])] "x").getD 0 0
              / (getCol [("x", [3, 4]), ("y", [0, 2])] "y").getD 0 0)
    ∧ (getCol (divider [("x", [3, 4]), ("y", [0, 2])] "x" "y" "r") "r").getD 1 0
        = (if (getCol [("x", [3, 4]), ("y", [0, 2])] "y").getD 1 0 = 0 then 0
          else (getCol [("x", [3, 4]), ("y", [0, 2])] "x").getD 1 0
              / (getCol [("x", [3, 4]), ("y", [0, 2])] "y").getD 1 0) :=
  ⟨(divider_zero_divisor_policy [("x", [3, 4]), ("y", [0, 2])] "x" "y" "r").2 0
      (by decide) (by decide),
   (divider_zero_divisor_policy [("x", [3, 4]), ("y", [0, 2])] "x" "y" "r").2 1
      (by decide) (by decide)⟩

/-! ## Frame effects of the column generators

Python dataframes are heap objects passed by reference.  To state that
`multiplier`, `divider` and `proportion_func` leave the caller's frame
untouched, the heap is made explicit: a store of dataframe objects, indexed
by reference.  Each of the three functions begins with `df = df_in.copy()`
(respectively `.copy(deep=True)`), so its column assignment lands on a fresh
object appended to the store, and the function returns the new reference.
-/

/-- The object store: dataframe objects addressed by position. -/
abbrev DfStore := List Df

/-- Dereference a dataframe object (out-of-range only keeps the model
total). -/
def store_get (σ : DfStore) (r : ℕ) : Df :=
  σ.getD r []

/-- Calling `multiplier(df_in, X, Y, new_col)` on the object at `r`:
`df = df_in.copy()` allocates, the assignment mutates the copy, the copy's
reference is returned. -/
def multiplier_call (σ : DfStore) (r : ℕ) (X Y new_col : String) : DfStore × ℕ :=
  (σ ++ [multiplier (store_get σ r) X Y new_col], σ.length)

/-- Calling `divider(df_in, X, Y, new_col)` on the object at `r`. -/
def divider_call (σ : DfStore) (r : ℕ) (X Y new_col : String) : DfStore × ℕ :=
  (σ ++ [divider (store_get σ r) X Y new_col], σ.length)

/-- Calling `proportion_func(df_in, X, Y, Z, new_col)` on the object at
`r`. -/
def proportion_func_call (σ : DfStore) (r : ℕ) (X Y Z new_col : String) :
    DfStore × ℕ :=
  (σ ++ [proportion_func (store_get σ r) X Y Z new_col], σ.length)

/-- Appending an object does not move the existing ones. -/
theorem store_get_append_lt (σ : DfStore) (d : Df) (j : ℕ) (hj : j < σ.length) :
    store_get (σ ++ [d]) j = store_get σ j := by
  unfold store_get
  exact List.getD_append σ [d] [] j hj

/-- The appended object lives at the old length. -/
theorem store_get_append_self (σ : DfStore) (d : Df) :
    store_get (σ ++ [d]) σ.length = d := by
  unfold store_get
  rw [List.getD_eq_getElem?_getD, List.getElem?_append_right (le_refl σ.length)]
  simp

/-- C10: `multiplier`, `divider` and `proportion_func` operate on a copy:
after any of the three calls, every pre-existing object of the store — in
particular the caller's input frame — is unchanged, and the frame at the
returned reference agrees with the input frame on every column other than
`new_col` while `new_col` holds the documented elementwise result. -/
theorem column_generators_operate_on_copy (σ : DfStore) (r : ℕ)
    (X Y Z new_col : String) :
    (∀ j, j < σ.length →
        store_get (multiplier_call σ r X Y new_col).1 j = store_get σ j
        ∧ store_get (divider_call σ r X Y new_col).1 j = store_get σ j
        ∧ store_get (proportion_func_call σ r X Y Z new_col).1 j = store_get σ j)
    ∧ (∀ c, c ≠ new_col →
        getCol (store_get (multiplier_call σ r X Y new_col).1
            (multiplier_call σ r X Y new_col).2) c = getCol (store_get σ r) c
        ∧ getCol (store_get (divider_call σ r X Y new_col).1
            (divider_call σ r X Y new_col).2) c = getCol (store_get σ r) c
        ∧ getCol (store_get (proportion_func_call σ r X Y Z new_col).1
            (proportion_func_call σ r X Y Z new_col).2) c = getCol (store_get σ r) c)
    ∧ getCol (store_get (multiplier_call σ r X Y new_col).1
          (multiplier_call σ r X Y new_col).2) new_col
        = np_multiply (getCol (store_get σ r) X) (getCol (store_get σ r) Y)
    ∧ getCol (store_get (divider_call σ r X Y new_col).1
          (divider_call σ r X Y new_col).2) new_col
        = np_divide_where (getCol (store_get σ r) X) (getCol (store_get σ r) Y) := by
  refine ⟨?_, ?_, ?_, ?_⟩
  · intro j hj
    exact ⟨store_get_append_lt σ _ j hj, store_get_append_lt σ _ j hj,
      store_get_append_lt σ _ j hj⟩
  · intro c hc
    refine ⟨?_, ?_, ?_⟩
    · show getCol (store_get (σ ++ [multiplier (store_get σ r) X Y new_col]) σ.length) c = _
      rw [store_get_append_self]
      exact getCol_setCol_ne _ _ _ _ hc
    · show getCol (store_get (σ ++ [divider (store_get σ r) X Y new_col]) σ.length) c = _
      rw [store_get_append_self]
      exact getCol_setCol_ne _ _ _ _ hc
    · show getCol (store_get (σ ++ [proportion_func (store_get σ r) X Y Z new_col]) σ.length) c = _
      rw [store_get_append_self]
      exact getCol_setCol_ne _ _ _ _ hc
  · show getCol (store_get (σ ++ [multiplier (store_get σ r) X Y new_col]) σ.length) new_col = _
    rw [store_get_append_self]
    exact getCol_setCol_self _ _ _
  · show getCol (store_get (σ ++ [divider (store_get σ r) X Y new_col]) σ.length) new_col = _
    rw [store_get_append_self]
    exact getCol_setCol_self _ _ _

/-- C10 witness: a one-object store; after `multiplier` and `divider` the
original object still holds its column, and the result frame keeps the
untouched column. -/
theorem column_generators_operate_on_copy_witness :
    store_get (multiplier_call [[("a", [2])]] 0 "a" "a" "b").1 0
        = store_get [[("a", [2])]] 0
    ∧ store_get (divider_call [[("a", [2])]] 0 "a" "a" "b").1 0
        = store_get [[("a", [2])]] 0
    ∧ store_get (proportion_func_call [[("a", [2])]] 0 "a" "a" "a" "b").1 0
        = store_get [[("a", [2])]] 0
    ∧ getCol (store_get (multiplier_call [[("a", [2])]] 0 "a" "a" "b").1
          (multiplier_call [[("a", [2])]] 0 "a" "a" "b").2) "a"
        = getCol (store_get [[("a", [2])]] 0) "a" :=
  ⟨((column_generators_operate_on_copy [[("a", [2])]] 0 "a" "a" "a" "b").1 0
      (by decide)).1,
   ((column_generators_operate_on_copy [[("a", [2])]] 0 "a" "a" "a" "b").1 0
      (by decide)).2.1,
   ((column_generators_operate_on_copy [[("a", [2])]] 0 "a" "a" "a" "b").1 0
      (by decide)).2.2,
   ((column_generators_operate_on_copy [[("a", [2])]] 0 "a" "a" "a" "b").2.1 "a"
      (by decide)).1⟩

/-! ## File Matcher (`src/data_import_tools/import_helpers.py`)

`file_finder(folder_path, filter_clauses)` lists the regular files of the
directory; with no clauses it returns that listing as found on disk.  With
clauses it lower-cases the clauses, lower-cases the filenames
(`pd.Series(...).str.lower()`), keeps the names containing any clause as a
substring (`str.contains('|'.join(...))`), and returns them sorted
ascending.  The directory listing is abstracted to the list of regular-file
names it produces.
-/

/-- `all_files.str.contains('|'.join(clauses))` for one filename, with the
clauses taken as literal substrings: an empty clause list joins to the
pattern `''`, which matches every name. -/
def series_str_contains_any (clauses : List String) (f : String) : Bool :=
  clauses.isEmpty || clauses.any (fun c => str_contains f c)

/-- Code-point lexicographic `≤` on character lists: Python's string
comparison. -/
def chars_le : List Char → List Char → Bool
  | [], _ => true
  | _ :: _, [] => false
  | a :: as, b :: bs => if a = b then chars_le as bs else decide (a < b)

/-- Python `a <= b` on strings (code-point lexicographic order). -/
def str_le_py (a b : String) : Bool :=
  chars_le a.data b.data

/-- Python `sorted` on strings: a stable sort by `<=`; on this total order
every sort agrees, modelled by insertion sort. -/
def sorted_py (l : List String) : List String :=
  l.insertionSort (fun a b => str_le_py a b = true)

/-- `file_finder`, over the directory's regular-file listing `files`. -/
def file_finder (files : List String) : Option (List String) → List String
  | none => files
  | some filter_clauses =>
      sorted_py ((files.map str_lower).filter
        (series_str_contains_any (filter_clauses.map str_lower)))

/-- `Char.ofNat` of a valid code point reads back. -/
theorem char_ofNat_toNat (m : Nat) (hm : m.isValidChar) :
    (Char.ofNat m).toNat = m := by
  simp [Char.ofNat, hm, Char.ofNatAux, Char.toNat, UInt32.toNat]

/-- ASCII case folding is idempotent. -/
theorem char_toLower_idem (c : Char) : c.toLower.toLower = c.toLower := by
  have hfix : ∀ d : Char, ¬(d.toNat ≥ 65 ∧ d.toNat ≤ 90) → d.toLower = d := by
    intro d hd
    unfold Char.toLower
    rw [if_neg hd]
  by_cases h : c.toNat ≥ 65 ∧ c.toNat ≤ 90
  · have hc : c.toLower = Char.ofNat (c.toNat + 32) := by
      unfold Char.toLower
      rw [if_pos h]
    have hv : (c.toNat + 32).isValidChar := Or.inl (by omega)
    apply hfix
    rw [hc, char_ofNat_toNat _ hv]
    omega
  · rw [hfix c h]
    exact hfix c h

/-- Lower-casing a string is idempotent. -/
theorem str_lower_idem (s : String) : str_lower (str_lower s) = str_lower s := by
  unfold str_lower
  apply congrArg String.mk
  rw [List.map_map]
  apply List.map_congr_left
  intro a _
  exact char_toLower_idem a

/-- The lexicographic comparison is total. -/
theorem chars_le_total : ∀ as bs : List Char,
    chars_le as bs = true ∨ chars_le bs as = true := by
  intro as
  induction as with
  | nil => intro bs; left; rfl
  | cons a as ih =>
    intro bs
    cases bs with
    | nil => right; rfl
    | cons b bs =>
      by_cases hab : a = b
      · subst hab
        simp only [chars_le, if_pos rfl]
        exact ih bs
      · have hba : b ≠ a := fun h => hab h.symm
        simp only [chars_le, if_neg hab, if_neg hba]
        rcases lt_trichotomy a b with h | h | h
        · left; exact decide_eq_true h
        · exact absurd h hab
        · right; exact decide_eq_true h

/-- The lexicographic comparison is transitive. -/
theorem chars_le_trans : ∀ as bs cs : List Char,
    chars_le as bs = true → chars_le bs cs = true → chars_le as cs = true := by
  intro as
  induction as with
  | nil => intro bs cs _ _; rfl
  | cons a as ih =>
    intro bs cs h1 h2
    cases bs with
    | nil => exact absurd h1 (by simp [chars_le])
    | cons b bs =>
      cases cs with
      | nil => exact absurd h2 (by simp [chars_le])
      | cons c cs =>
        by_cases hab : a = b
        · subst hab
          simp only [chars_le, if_pos rfl] at h1
          by_cases hac : a = c
          · subst hac
            simp only [chars_le, if_pos rfl] at h2 ⊢
            exact ih bs cs h1 h2
          · simp only [chars_le, if_neg hac] at h2 ⊢
            exact h2
        · simp only [chars_le, if_neg hab, decide_eq_true_eq] at h1
          by_cases hbc : b = c
          · subst hbc
            simp only [chars_le, if_neg hab, decide_eq_true_eq]
            exact h1
          · simp only [chars_le, if_neg hbc, decide_eq_true_eq] at h2
            have hac : a ≠ c := ne_of_lt (lt_trans h1 h2)
            simp only [chars_le, if_neg hac, decide_eq_true_eq]
            exact lt_trans h1 h2

instance : IsTotal String (fun a b => str_le_py a b = true) :=
  ⟨fun a b => chars_le_total a.data b.data⟩

instance : IsTrans String (fun a b => str_le_py a b = true) :=
  ⟨fun a b c => chars_le_trans a.data b.data c.data⟩

/-- Sorting does not change membership. -/
theorem mem_sorted_py (l : List String) (x : String) :
    x ∈ sorted_py l ↔ x ∈ l :=
  (List.perm_insertionSort _ l).mem_iff

/-- The output of `sorted_py` is sorted. -/
theorem sorted_py_sorted (l : List String) :
    List.Sorted (fun a b => str_le_py a b = true) (sorted_py l) :=
  List.sorted_insertionSort _ l

/-- Sorting a sorted list is the identity. -/
theorem sorted_py_eq_of_sorted (l : List String)
    (h : List.Sorted (fun a b => str_le_py a b = true) l) :
    sorted_py l = l :=
  List.Sorted.insertionSort_eq h

/-- The match test only depends on the multiset of clauses. -/
theorem series_str_contains_any_perm (l₁ l₂ : List String) (h : l₁.Perm l₂)
    (f : String) : series_str_contains_any l₁ f = series_str_contains_any l₂ f := by
  unfold series_str_contains_any
  have hemp : l₁.isEmpty = l₂.isEmpty := by
    cases l₁ <;> cases l₂ <;> first | rfl | exact absurd h.length_eq (by simp)
  have hany : (l₁.any fun c => str_contains f c)
      = (l₂.any fun c => str_contains f c) := by
    have hiff : ((l₁.any fun c => str_contains f c) = true)
        ↔ ((l₂.any fun c => str_contains f c) = true) := by
      simp only [List.any_eq_true]
      constructor
      · rintro ⟨x, hx, hgx⟩
        exact ⟨x, h.mem_iff.mp hx, hgx⟩
      · rintro ⟨x, hx, hgx⟩
        exact ⟨x, h.mem_iff.mpr hx, hgx⟩
    cases ha : (l₁.any fun c => str_contains f c) <;>
      cases hb : (l₂.any fun c => str_contains f c) <;> simp_all
  rw [hemp, hany]

/-- C4 counterexample: the claim says `File Matcher(D, T)` returns a subset
of `File Matcher(D, None)`.  With the single file `A.csv` and term `a`, the
filtered call returns the lower-cased name `a.csv`, which is not among the
as-found-on-disk names returned by the unfiltered call. -/
theorem file_finder_not_subset_of_unfiltered :
    "a.csv" ∈ file_finder ["A.csv"] (some ["a"])
    ∧ "a.csv" ∉ file_finder ["A.csv"] none := by
  decide

/-- C4 amended: `file_finder` with search terms is idempotent, every name it
returns is the lower-casing of a name of the unfiltered listing (the subset
claim holds only up to this lower-casing, since the filtered branch returns
lower-cased names), and it is invariant to the case of the terms and to the
order of the terms. -/
theorem file_finder_algebra (files : List String) (clauses : List String) :
    file_finder (file_finder files (some clauses)) (some clauses)
        = file_finder files (some clauses)
    ∧ (∀ x, x ∈ file_finder files (some clauses) →
        x ∈ (file_finder files none).map str_lower)
    ∧ (∀ clauses2, clauses2.map str_lower = clauses.map str_lower →
        file_finder files (some clauses2) = file_finder files (some clauses))
    ∧ (∀ clauses2, clauses2.Perm clauses →
        file_finder files (some clauses2) = file_finder files (some clauses)) := by
  refine ⟨?_, ?_, ?_, ?_⟩
  · show sorted_py (((file_finder files (some clauses)).map str_lower).filter
        (series_str_contains_any (clauses.map str_lower)))
      = file_finder files (some clauses)
    have hmemlow : ∀ x ∈ file_finder files (some clauses), str_lower x = id x := by
      intro x hx
      have hx1 : x ∈ (files.map str_lower).filter
          (series_str_contains_any (clauses.map str_lower)) :=
        (mem_sorted_py _ _).mp hx
      have hx2 : x ∈ files.map str_lower := (List.mem_filter.mp hx1).1
      obtain ⟨y, _, rfl⟩ := List.mem_map.mp hx2
      exact str_lower_idem y
    rw [List.map_congr_left hmemlow, List.map_id]
    have hfil : (file_finder files (some clauses)).filter
        (series_str_contains_any (clauses.map str_lower))
        = file_finder files (some clauses) := by
      apply List.filter_eq_self.mpr
      intro x hx
      exact (List.mem_filter.mp ((mem_sorted_py _ _).mp hx)).2
    rw [hfil]
    exact sorted_py_eq_of_sorted _ (sorted_py_sorted _)
  · intro x hx
    have hx1 : x ∈ (files.map str_lower).filter
        (series_str_contains_any (clauses.map str_lower)) :=
      (mem_sorted_py _ _).mp hx
    exact (List.mem_filter.mp hx1).1
  · intro clauses2 h2
    show sorted_py _ = sorted_py _
    rw [h2]
  · intro clauses2 h2
    show sorted_py _ = sorted_py _
    congr 1
    apply List.filter_congr
    intro x _
    exact series_str_contains_any_perm _ _ (h2.map str_lower) x

/-- C4 witness: idempotence, lowered-subset, case-invariance (terms `b`,`A`
versus `B`,`a`) and order-invariance (terms `a`,`B` versus `B`,`a`) at a
concrete two-file directory. -/
theorem file_finder_algebra_witness :
    file_finder (file_finder ["A.csv", "b.txt"] (some ["B", "a"])) (some ["B", "a"])
        = file_finder ["A.csv", "b.txt"] (some ["B", "a"])
    ∧ "a.csv" ∈ (file_finder ["A.csv", "b.txt"] none).map str_lower
    ∧ file_finder ["A.csv", "b.txt"] (some ["b", "A"])
        = file_finder ["A.csv", "b.txt"] (some ["B", "a"])
    ∧ file_finder ["A.csv", "b.txt"] (some ["a", "B"])
        = file_finder ["A.csv", "b.txt"] (some ["B", "a"]) :=
  ⟨(file_finder_algebra ["A.csv", "b.txt"] ["B", "a"]).1,
   (file_finder_algebra ["A.csv", "b.txt"] ["B", "a"]).2.1 "a.csv" (by decide),
   (file_finder_algebra ["A.csv", "b.txt"] ["B", "a"]).2.2.1 ["b", "A"] (by decide),
   (file_finder_algebra ["A.csv", "b.txt"] ["B", "a"]).2.2.2 ["a", "B"]
     (List.Perm.swap "B" "a" [])⟩

/-! ## Upsampling (`src/ts_tools/ts_agg_disagg.py`)

`disagg_func_stairs` on an annual `PeriodIndex` dataframe resamples to
quarterly with `df.resample(rule='Q', convention='start').ffill()`: pandas
lays out the full quarterly range from the first year's Q1 to the last
year's Q4, places each annual value at its year's Q1, and forward-fills.
The index is modelled as a strictly increasing list of `(year, value)` rows
(one value column); a quarter is `(year, q)` with `q ∈ {1,2,3,4}`. -/

/-- The forward-filled value at a quarter of year `y`: the value of the last
annual period at or before `y`. -/
def ffill_val (xs : List (Int × ℚ)) (y : Int) : ℚ :=
  (((xs.filter (fun p => decide (p.1 ≤ y))).getLast?).map Prod.snd).getD 0

/-- `disagg_func_stairs` for the annual-to-quarterly branch: quarters from
the first year to the last year, each carrying the forward-filled value. -/
def disagg_func_stairs (xs : List (Int × ℚ)) : List ((Int × ℕ) × ℚ) :=
  match xs with
  | [] => []
  | x :: rest =>
      (List.range (((((x :: rest).getLast?).getD x).1 - x.1).toNat + 1)).flatMap
        (fun (i : ℕ) => ([1, 2, 3, 4] : List ℕ).map
          (fun q => ((x.1 + (i : ℤ), q), ffill_val (x :: rest) (x.1 + (i : ℤ)))))

/-- C2 counterexample: the claim promises one output row per child quarter
of the input's annual periods.  For the gapped annual index 2019, 2021 the
input has eight child quarters, but the resampled output has twelve rows —
it also contains the quarters of the absent year 2020, carrying 2019's value
forward into a year that has no parent value. -/
theorem disagg_func_stairs_gap_year_rows :
    (disagg_func_stairs [(2019, 1), (2021, 2)]).length = 12
    ∧ ([((2019 : ℤ), (1 : ℚ)), (2021, 2)].map Prod.fst) = [2019, 2021]
    ∧ ((2020, 1), (1 : ℚ)) ∈ disagg_func_stairs [(2019, 1), (2021, 2)] := by
  decide

/-- Restriction of a consecutive-years hypothesis to the tail. -/
theorem consecutive_tail (x : Int × ℚ) (t : List (Int × ℚ)) (y0 : Int)
    (hc : ∀ (j : ℕ) (h : j < (x :: t).length), ((x :: t).get ⟨j, h⟩).1 = y0 + (j : ℤ)) :
    ∀ (j : ℕ) (h : j < t.length), (t.get ⟨j, h⟩).1 = (y0 + 1) + (j : ℤ) := by
  intro j hj
  have hsucc : j + 1 < (x :: t).length := by simpa using Nat.succ_lt_succ hj
  have h1 := hc (j + 1) hsucc
  have h2 : (x :: t).get ⟨j + 1, hsucc⟩ = t.get ⟨j, hj⟩ := rfl
  rw [h2] at h1
  rw [h1]
  push_cast
  ring

/-- On consecutive years starting at `y0`, the rows at or before year
`y0 + i` are exactly the first `i + 1` rows. -/
theorem filter_le_eq_take : ∀ (xs : List (Int × ℚ)) (y0 : Int) (i : ℕ),
    (∀ (j : ℕ) (h : j < xs.length), (xs.get ⟨j, h⟩).1 = y0 + (j : ℤ)) →
    i < xs.length →
    xs.filter (fun p => decide (p.1 ≤ y0 + (i : ℤ))) = xs.take (i + 1) := by
  intro xs
  induction xs with
  | nil =>
    intro y0 i hc hi
    simp at hi
  | cons x t ih =>
    intro y0 i hc hi
    have hx : x.1 = y0 := by simpa using hc 0 (by simp)
    have hct := consecutive_tail x t y0 hc
    cases i with
    | zero =>
      have hhead : (decide (x.1 ≤ y0 + ((0 : ℕ) : ℤ))) = true := by simp [hx]
      have htail : t.filter (fun p => decide (p.1 ≤ y0 + ((0 : ℕ) : ℤ))) = [] := by
        rw [List.filter_eq_nil_iff]
        intro p hp
        obtain ⟨⟨j, hj⟩, rfl⟩ := List.mem_iff_get.mp hp
        have hpj := hct j hj
        simp only [hpj, decide_eq_true_eq]
        intro hle
        omega
      rw [List.filter_cons, if_pos hhead, htail]
      rfl
    | succ k =>
      have hhead : (decide (x.1 ≤ y0 + ((k + 1 : ℕ) : ℤ))) = true := by
        simp only [hx, decide_eq_true_eq]
        push_cast
        omega
      have hk : k < t.length := by simpa using Nat.lt_of_succ_lt_succ hi
      have ht : t.filter (fun p => decide (p.1 ≤ y0 + ((k + 1 : ℕ) : ℤ)))
          = t.take (k + 1) := by
        have heq : y0 + ((k + 1 : ℕ) : ℤ) = (y0 + 1) + (k : ℤ) := by
          push_cast
          ring
        rw [heq]
        exact ih (y0 + 1) k hct hk
      rw [List.filter_cons, if_pos hhead, ht]
      rfl

/-- The last of the first `i + 1` rows is row `i`. -/
theorem getLast_take_of_lt (xs : List (Int × ℚ)) (i : ℕ) (hi : i < xs.length) :
    (xs.take (i + 1)).getLast? = some (xs.get ⟨i, hi⟩) := by
  rw [List.getLast?_eq_getElem?]
  have hlen : (xs.take (i + 1)).length = i + 1 := by
    rw [List.length_take]
    omega
  rw [hlen]
  simp only [Nat.add_sub_cancel]
  rw [List.getElem?_take, if_pos (Nat.lt_succ_self i), List.getElem?_eq_getElem hi]
  rfl

/-- On consecutive years, forward fill at year `y0 + i` reads row `i`'s
value. -/
theorem ffill_val_at (xs : List (Int × ℚ)) (y0 : Int)
    (hc : ∀ (j : ℕ) (h : j < xs.length), (xs.get ⟨j, h⟩).1 = y0 + (j : ℤ))
    (i : ℕ) (hi : i < xs.length) :
    ffill_val xs (y0 + (i : ℤ)) = (xs.get ⟨i, hi⟩).2 := by
  unfold ffill_val
  rw [filter_le_eq_take xs y0 i hc hi, getLast_take_of_lt xs i hi]
  rfl

/-- Congruence for `flatMap`. -/
theorem flatMap_congr_left {α β : Type} (l : List α) (f g : α → List β)
    (h : ∀ a ∈ l, f a = g a) : l.flatMap f = l.flatMap g := by
  induction l with
  | nil => rfl
  | cons x t ih =>
    rw [List.flatMap_cons, List.flatMap_cons, h x (by simp),
      ih (fun a ha => h a (by simp [ha]))]

/-- A `flatMap` over positions with a default read is a `flatMap` over the
list. -/
theorem flatMap_range_getD {β : Type} (xs : List (Int × ℚ))
    (g : (Int × ℚ) → List β) :
    (List.range xs.length).flatMap (fun (i : ℕ) => g (xs.getD i (0, 0)))
      = xs.flatMap g := by
  induction xs with
  | nil => rfl
  | cons x t ih =>
    rw [List.length_cons, List.range_succ_eq_map, List.flatMap_cons]
    have hmap : ((List.range t.length).map Nat.succ).flatMap
        (fun (i : ℕ) => g ((x :: t).getD i (0, 0)))
        = (List.range t.length).flatMap (fun (i : ℕ) => g (t.getD i (0, 0))) := by
      rw [List.flatMap_def, List.map_map, ← List.flatMap_def]
      rfl
    rw [hmap, ih, List.flatMap_cons]
    rfl

/-- C2 amended: on a gap-free (consecutive) annual index, annual-to-quarterly
upsampling yields exactly one row per child quarter, the four quarters of
each input year all carrying that year's original value (copied via
forward fill after resampling); with gaps in the index the resampled output
additionally contains quarters of the missing years (see the
counterexample). -/
theorem disagg_func_stairs_contiguous (xs : List (Int × ℚ)) (y0 : Int)
    (hne : xs ≠ [])
    (hc : ∀ (j : ℕ) (h : j < xs.length), (xs.get ⟨j, h⟩).1 = y0 + (j : ℤ)) :
    disagg_func_stairs xs
      = xs.flatMap (fun x => ([1, 2, 3, 4] : List ℕ).map (fun q => ((x.1, q), x.2))) := by
  cases xs with
  | nil => exact absurd rfl hne
  | cons x rest =>
    have hx : x.1 = y0 := by simpa using hc 0 (by simp)
    have hpos : (x :: rest).length - 1 < (x :: rest).length := by simp
    have hg : (x :: rest).getLast? = some ((x :: rest).get ⟨(x :: rest).length - 1, hpos⟩) := by
      rw [List.getLast?_eq_getElem?, List.getElem?_eq_getElem hpos]
      rfl
    have hlast : (((x :: rest).getLast?).getD x).1
        = y0 + (((x :: rest).length - 1 : ℕ) : ℤ) := by
      rw [hg, Option.getD_some]
      exact hc _ hpos
    have hcount : ((((x :: rest).getLast?).getD x).1 - x.1).toNat + 1
        = (x :: rest).length := by
      rw [hlast, hx]
      have hlen1 : 1 ≤ (x :: rest).length := by simp
      omega
    have hunfold : disagg_func_stairs (x :: rest)
        = (List.range (((((x :: rest).getLast?).getD x).1 - x.1).toNat + 1)).flatMap
            (fun (i : ℕ) => ([1, 2, 3, 4] : List ℕ).map
              (fun q => ((x.1 + (i : ℤ), q), ffill_val (x :: rest) (x.1 + (i : ℤ))))) := rfl
    rw [hunfold, hcount]
    have hpt : ∀ i ∈ List.range (x :: rest).length,
        ([1, 2, 3, 4] : List ℕ).map
            (fun q => ((x.1 + (i : ℤ), q), ffill_val (x :: rest) (x.1 + (i : ℤ))))
          = (fun p => ([1, 2, 3, 4] : List ℕ).map (fun q => ((p.1, q), p.2)))
              ((x :: rest).getD i (0, 0)) := by
      intro i hi
      rw [List.mem_range] at hi
      have hgetD : (x :: rest).getD i (0, 0) = (x :: rest).get ⟨i, hi⟩ := by
        rw [List.getD_eq_getElem _ _ hi]
        rfl
      rw [hgetD, hx, ffill_val_at (x :: rest) y0 hc i hi]
      simp only [hc i hi]
    rw [flatMap_congr_left _ _ _ hpt]
    exact flatMap_range_getD (x :: rest)
      (fun p => ([1, 2, 3, 4] : List ℕ).map (fun q => ((p.1, q), p.2)))

/-- C2 witness: the annual index 2019..2021 with values 10, 20, 30 yields
twelve quarterly rows, the four quarters of each year carrying that year's
value. -/
theorem disagg_func_stairs_contiguous_witness :
    disagg_func_stairs [(2019, 10), (2020, 20), (2021, 30)]
      = ([((2019 : ℤ), (10 : ℚ)), (2020, 20), (2021, 30)]).flatMap
          (fun x => ([1, 2, 3, 4] : List ℕ).map (fun q => ((x.1, q), x.2))) :=
  disagg_func_stairs_contiguous [(2019, 10), (2020, 20), (2021, 30)] 2019
    (by decide) (by decide)

/-! ## Largest-remainder correction
(`src/functions/main_program_functions.py`, `diff_maker` and
`rounding_error_dealer`)

A row carries the year (`aar`), the known total (`total_avgift_kroner`) and
the estimated disaggregated value (`est_avgift_kroner`).  `diff_maker`
computes, per row, the known total minus the year's sum of estimates
(groupby-sum merged back onto the rows); `rounding_error_dealer` marks the
rows holding their year's maximum estimate (`groupby.transform(max)`),
counts them (`n_max_obs`), and adds `diff / n_max_obs` to exactly those rows
(`np.where` on the `corr_fees` column), leaving every other row as is. -/

/-- One dataframe row of the fee dataset. -/
structure FeeRow where
  aar : Int
  total_avgift_kroner : ℚ
  est_avgift_kroner : ℚ
deriving DecidableEq

/-- The year's sum of the estimated column
(`groupby(year_col)[est_fee_col].sum()`). -/
def sum_est_year (df : List FeeRow) (y : Int) : ℚ :=
  ((df.filter (fun r => decide (r.aar = y))).map FeeRow.est_avgift_kroner).sum

/-- One entry of the `diff` column of `diff_maker`: the row's known total
minus its year's estimate sum (the groupby sum merged back on the year
key). -/
def row_diff (df : List FeeRow) (r : FeeRow) : ℚ :=
  r.total_avgift_kroner - sum_est_year df r.aar

/-- `diff_maker`: the `diff` column, in row order. -/
def diff_maker (df : List FeeRow) : List ℚ :=
  df.map (row_diff df)

/-- The year's maximum estimate
(`groupby(year_col)[est_fee_col].transform(max)` restricted to the year). -/
def max_est_year (df : List FeeRow) (y : Int) : ℚ :=
  (((df.filter (fun r => decide (r.aar = y))).map FeeRow.est_avgift_kroner).max?).getD 0

/-- `n_max_obs`: how many rows of the year hold the year's maximum
estimate. -/
def n_max_year (df : List FeeRow) (y : Int) : ℕ :=
  (df.filter (fun r =>
    decide (r.aar = y) && decide (r.est_avgift_kroner = max_est_year df r.aar))).length

/-- The per-row effect of `rounding_error_dealer`: a row in the `idx` subset
(holding its year's maximum estimate) receives `corr_fees = est + diff /
n_max_obs`; `np.where(corr_fees.notna(), corr_fees, est)` keeps every other
row unchanged. -/
def dealer_update (df : List FeeRow) (r : FeeRow) : FeeRow :=
  if decide (r.est_avgift_kroner = max_est_year df r.aar) then
    { r with est_avgift_kroner :=
        r.est_avgift_kroner + row_diff df r / (n_max_year df r.aar : ℚ) }
  else r

/-- `rounding_error_dealer`: apply the correction to every row of the
frame. -/
def rounding_error_dealer (df : List FeeRow) : List FeeRow :=
  df.map (dealer_update df)

/-- Summing an indicator-valued map counts the filter. -/
theorem sum_map_ite_const {α : Type} (p : α → Bool) (c : ℚ) :
    ∀ l : List α,
      (l.map (fun r => if p r then c else 0)).sum = ((l.filter p).length : ℚ) * c := by
  intro l
  induction l with
  | nil => simp
  | cons x t ih =>
    cases hp : p x
    · simpa [List.filter_cons, hp] using ih
    · simp only [List.map_cons, List.sum_cons, List.filter_cons, hp, if_true,
        List.length_cons, ih]
      push_cast
      ring

/-- The correction never moves a row to another year. -/
theorem dealer_update_aar (df : List FeeRow) (r : FeeRow) :
    (dealer_update df r).aar = r.aar := by
  unfold dealer_update
  split <;> rfl

/-- The correction never changes a row's known total. -/
theorem dealer_update_total (df : List FeeRow) (r : FeeRow) :
    (dealer_update df r).total_avgift_kroner = r.total_avgift_kroner := by
  unfold dealer_update
  split <;> rfl

/-- Within `r0`'s year group, the corrected estimate is the old estimate
plus an even share of the year's discrepancy for max rows, and unchanged
otherwise. -/
theorem dealer_update_est_in_year (df : List FeeRow) (r0 : FeeRow) (hr0 : r0 ∈ df)
    (htot : ∀ r ∈ df, ∀ s ∈ df, r.aar = s.aar →
      r.total_avgift_kroner = s.total_avgift_kroner)
    (r : FeeRow) (hr : r ∈ df.filter (fun s => decide (s.aar = r0.aar))) :
    (dealer_update df r).est_avgift_kroner
      = r.est_avgift_kroner
        + (if decide (r.est_avgift_kroner = max_est_year df r0.aar) then
            (r0.total_avgift_kroner - sum_est_year df r0.aar)
              / (n_max_year df r0.aar : ℚ)
          else 0) := by
  obtain ⟨hrdf, hraar⟩ := List.mem_filter.mp hr
  have hraar' : r.aar = r0.aar := by simpa using hraar
  have hrtot : r.total_avgift_kroner = r0.total_avgift_kroner :=
    htot r hrdf r0 hr0 (by rw [hraar'])
  unfold dealer_update row_diff
  rw [hraar', hrtot]
  split
  · rfl
  · exact (add_zero _).symm

/-- The year group of `rounding_error_dealer`'s output is the corrected year
group of the input. -/
theorem dealer_filter_year (df : List FeeRow) (y : Int) :
    (rounding_error_dealer df).filter (fun r => decide (r.aar = y))
      = (df.filter (fun r => decide (r.aar = y))).map (dealer_update df) := by
  unfold rounding_error_dealer
  rw [List.filter_map]
  congr 1
  apply List.filter_congr
  intro r _
  simp [Function.comp, dealer_update_aar]

/-- The year's maximum estimate is attained by at least one row of the
year. -/
theorem n_max_year_pos (df : List FeeRow) (r0 : FeeRow) (hr0 : r0 ∈ df) :
    0 < n_max_year df r0.aar := by
  have hg : r0 ∈ df.filter (fun r => decide (r.aar = r0.aar)) :=
    List.mem_filter.mpr ⟨hr0, by simp⟩
  have hne : ((df.filter (fun r => decide (r.aar = r0.aar))).map
      FeeRow.est_avgift_kroner) ≠ [] := by
    simp only [ne_eq, List.map_eq_nil_iff]
    exact List.ne_nil_of_mem hg
  obtain ⟨m, hm⟩ : ∃ m, ((df.filter (fun r => decide (r.aar = r0.aar))).map
      FeeRow.est_avgift_kroner).max? = some m := by
    cases hmax : ((df.filter (fun r => decide (r.aar = r0.aar))).map
        FeeRow.est_avgift_kroner).max? with
    | none => exact absurd (List.max?_eq_none_iff.mp hmax) hne
    | some m => exact ⟨m, rfl⟩
  have hmem : m ∈ ((df.filter (fun r => decide (r.aar = r0.aar))).map
      FeeRow.est_avgift_kroner) := List.max?_mem max_choice hm
  obtain ⟨r, hrg, hre⟩ := List.mem_map.mp hmem
  obtain ⟨hrdf, hraar⟩ := List.mem_filter.mp hrg
  have hraar' : r.aar = r0.aar := by simpa using hraar
  have hM : max_est_year df r0.aar = m := by
    unfold max_est_year
    rw [hm]
    rfl
  have hrmem : r ∈ df.filter (fun s =>
      decide (s.aar = r0.aar) && decide (s.est_avgift_kroner = max_est_year df s.aar)) := by
    apply List.mem_filter.mpr
    refine ⟨hrdf, ?_⟩
    have h1 : decide (r.aar = r0.aar) = true := by simpa using hraar'
    have h2 : decide (r.est_avgift_kroner = max_est_year df r.aar) = true := by
      rw [hraar', hM]
      simpa using hre
    rw [h1, h2]
    rfl
  unfold n_max_year
  have := List.ne_nil_of_mem hrmem
  exact List.length_pos.mpr this

/-- C1: when the known-total column is constant within each year, the
correction makes every year's estimate sum equal that year's declared total
exactly (zero residual); the whole per-year discrepancy is added only to the
row(s) holding the year's maximum estimate, split evenly among ties
(`diff / n_max_obs` each), and every other row is returned unchanged. -/
theorem rounding_error_dealer_zero_residual (df : List FeeRow)
    (htot : ∀ r ∈ df, ∀ s ∈ df, r.aar = s.aar →
      r.total_avgift_kroner = s.total_avgift_kroner) :
    (∀ r0 ∈ df, sum_est_year (rounding_error_dealer df) r0.aar
        = r0.total_avgift_kroner)
    ∧ (∀ (i : ℕ) (hi : i < df.length) (ho : i < (rounding_error_dealer df).length),
        ((df.get ⟨i, hi⟩).est_avgift_kroner
            ≠ max_est_year df (df.get ⟨i, hi⟩).aar →
          (rounding_error_dealer df).get ⟨i, ho⟩ = df.get ⟨i, hi⟩)
        ∧ ((df.get ⟨i, hi⟩).est_avgift_kroner
            = max_est_year df (df.get ⟨i, hi⟩).aar →
          (rounding_error_dealer df).get ⟨i, ho⟩
            = ⟨(df.get ⟨i, hi⟩).aar, (df.get ⟨i, hi⟩).total_avgift_kroner,
                (df.get ⟨i, hi⟩).est_avgift_kroner
                  + row_diff df (df.get ⟨i, hi⟩)
                    / (n_max_year df (df.get ⟨i, hi⟩).aar : ℚ)⟩)) := by
  constructor
  · intro r0 hr0
    unfold sum_est_year
    rw [dealer_filter_year df r0.aar, List.map_map]
    have hpt : ∀ r ∈ df.filter (fun s => decide (s.aar = r0.aar)),
        (FeeRow.est_avgift_kroner ∘ dealer_update df) r
          = (fun r => r.est_avgift_kroner
              + (if decide (r.est_avgift_kroner = max_est_year df r0.aar) then
                  (r0.total_avgift_kroner - sum_est_year df r0.aar)
                    / (n_max_year df r0.aar : ℚ)
                else 0)) r := by
      intro r hr
      exact dealer_update_est_in_year df r0 hr0 htot r hr
    rw [List.map_congr_left hpt, List.sum_map_add]
    have hcount : ((df.filter (fun s => decide (s.aar = r0.aar))).map
        (fun r => if decide (r.est_avgift_kroner = max_est_year df r0.aar) then
            (r0.total_avgift_kroner - sum_est_year df r0.aar)
              / (n_max_year df r0.aar : ℚ)
          else 0)).sum
        = (n_max_year df r0.aar : ℚ)
            * ((r0.total_avgift_kroner - sum_est_year df r0.aar)
                / (n_max_year df r0.aar : ℚ)) := by
      rw [sum_map_ite_const]
      congr 2
      rw [List.filter_filter]
      unfold n_max_year
      apply congrArg List.length
      apply List.filter_congr
      intro r _
      by_cases hy : r.aar = r0.aar
      · rw [hy]
        exact Bool.and_comm _ _
      · have h1 : decide (r.aar = r0.aar) = false := by simpa using hy
        rw [h1, Bool.and_false, Bool.false_and]
    rw [hcount]
    have hk : 0 < n_max_year df r0.aar := n_max_year_pos df r0 hr0
    have hk0 : (n_max_year df r0.aar : ℚ) ≠ 0 := by
      exact_mod_cast Nat.pos_iff_ne_zero.mp hk
    rw [mul_div_cancel₀ _ hk0]
    show sum_est_year df r0.aar
        + (r0.total_avgift_kroner - sum_est_year df r0.aar)
      = r0.total_avgift_kroner
    ring
  · intro i hi ho
    constructor
    · intro hne
      have hg : (rounding_error_dealer df).get ⟨i, ho⟩
          = dealer_update df (df.get ⟨i, hi⟩) := by
        unfold rounding_error_dealer
        simp [List.get_eq_getElem, List.getElem_map]
      rw [hg]
      unfold dealer_update
      rw [if_neg (by simpa using hne)]
    · intro heq
      have hg : (rounding_error_dealer df).get ⟨i, ho⟩
          = dealer_update df (df.get ⟨i, hi⟩) := by
        unfold rounding_error_dealer
        simp [List.get_eq_getElem, List.getElem_map]
      rw [hg]
      unfold dealer_update
      rw [if_pos (by simpa using heq)]

/-- C1 witness: year 2020 declares a total of 10 against estimates 3 and 5;
after correction the year's estimates sum to exactly 10, the non-max row is
untouched, and the max row received the whole discrepancy. -/
theorem rounding_error_dealer_zero_residual_witness :
    sum_est_year (rounding_error_dealer [⟨2020, 10, 3⟩, ⟨2020, 10, 5⟩]) 2020 = 10
    ∧ (rounding_error_dealer [⟨2020, 10, 3⟩, ⟨2020, 10, 5⟩]).get
        ⟨0, by decide⟩ = ⟨2020, 10, 3⟩ :=
  ⟨(rounding_error_dealer_zero_residual [⟨2020, 10, 3⟩, ⟨2020, 10, 5⟩]
      (by decide)).1 ⟨2020, 10, 3⟩ (by decide),
   ((rounding_error_dealer_zero_residual [⟨2020, 10, 3⟩, ⟨2020, 10, 5⟩]
      (by decide)).2 0 (by decide) (by decide)).1 (by decide)⟩
